import Mathlib

/-!
Shallow embedding of `rikonor/stubby-mcmockerface` (Go), covering
`examples/publisher/main.go` and `examples/doer/main.go`.

Publishers (`Publisher interface { Publish(msg string) error }`) are modelled
as pure functions from the message to a pair of a delivery trace and an
optional error.  The trace records the messages actually delivered by leaf
publishers (destination, message); a `nil` Go error is `none`.

The closure state of `BatchPublisher` (the captured `msgs` slice) is made
explicit: the closure body becomes a state-passing step function.

HTTP clients (`HTTPClient interface { Do(req) (*http.Response, error) }`) are
modelled as state-passing functions, so that a stateful inner client (one
whose outcome varies per attempt, as a mock's `DoFn` may) is representable;
`Do` returns a possibly-nil response together with a possibly-nil error,
exactly as in Go.
-/

namespace StubbyMc

/-- Go `error` values, modelled as strings (`nil` is `Option.none`). -/
abbrev Err := String

/-- A delivery trace entry: (destination, message actually delivered). -/
abbrev Trace := List (String × String)

/-- `Publisher`: `Publish(msg string) error`, plus the observable trace of
leaf deliveries performed during the call. -/
abbrev Publisher := String → Trace × Option Err

/-- `NewPublisher` (publisher/main.go:82): a leaf that "publishes" (prints)
the message to its destination and returns `nil`. -/
def NewPublisher (dest : String) : Publisher :=
  fun msg => ([(dest, msg)], none)

/-- A `MockPublisher` whose `PublishFn` always fails with
`fmt.Errorf("failed to send msg: %s", msg)` (publisher/main.go:61-65);
the delivery attempt is recorded in the trace so invocation is visible. -/
def failPublisher (dest : String) : Publisher :=
  fun msg => ([(dest, msg)], some ("failed to send msg: " ++ msg))

/-- `TransformPublisher` (publisher/main.go:108-115): transform the message
using the given transform function, then send it along. -/
def TransformPublisher (p : Publisher) (tfn : String → String) : Publisher :=
  fun msg => p (tfn msg)

/-- The uppercase transform used in the examples, mapping each character to
its uppercase form. -/
def uppercase (s : String) : String := ⟨s.data.map Char.toUpper⟩

/-- `MultiPublisher` (publisher/main.go:118-132): iterate over all publishers
and send to each in turn, returning the first encountered error. -/
def MultiPublisher : List Publisher → Publisher
  | [] => fun _ => ([], none)
  | p :: ps => fun msg =>
      let r := p msg
      match r.2 with
      | some e => (r.1, some e)
      | none =>
          let rest := MultiPublisher ps msg
          (r.1 ++ rest.1, rest.2)

/-- The closure body created by `BatchPublisher` (publisher/main.go:135-158),
with the captured `msgs` slice passed explicitly.  One `Publish(msg)` call:
append `msg`; if the buffer length equals `batchSize`, join the buffered
messages with `","` and forward the aggregate to `p`, otherwise absorb the
call and return `nil`.  The result exposes (messages forwarded in this call,
(trace, returned error)) together with the new buffer.  Note that the source
never resets `msgs` after forwarding. -/
def BatchPublisher (p : Publisher) (batchSize : Nat) (msgs : List String)
    (msg : String) : (List String × (Trace × Option Err)) × List String :=
  let msgs' := msgs ++ [msg]
  if msgs'.length = batchSize then
    let batchMsg := String.intercalate "," msgs'
    (([batchMsg], p batchMsg), msgs')
  else
    (([], ([], none)), msgs')

/-- Run a sequence of `Publish` calls against a `BatchPublisher` closure
starting from buffer `msgs`, collecting each call's observation and the
final buffer. -/
def batchRun (p : Publisher) (batchSize : Nat) (msgs : List String) :
    List String → List (List String × (Trace × Option Err)) × List String
  | [] => ([], msgs)
  | m :: ms =>
      ((BatchPublisher p batchSize msgs m).1 ::
        (batchRun p batchSize (BatchPublisher p batchSize msgs m).2 ms).1,
       (batchRun p batchSize (BatchPublisher p batchSize msgs m).2 ms).2)

/-- Requests are opaque identifiers: `RetryHTTPClient` passes the same
request to every attempt unmodified. -/
abbrev Req := String

/-- Response bodies, standing in for `*http.Response`. -/
abbrev Resp := String

/-- The pair returned by `Do`: a possibly-nil `*http.Response` and a
possibly-nil `error`, as in Go. -/
structure DoResult where
  resp : Option Resp
  err : Option Err
deriving DecidableEq, Repr

/-- An `HTTPClient` with explicit state `σ` (the state of the wrapped mock
or transport): `Do` consumes the state and the request. -/
abbrev Client (σ : Type) := σ → Req → DoResult × σ

/-- The `for i := 0; i < retries; i++` loop of `RetryHTTPClient`
(doer/main.go:178-187), counting the remaining iterations: attempt
`c.Do(req)`; on failure record the error and continue; on success return
`(res, nil)` at once; when iterations are exhausted return `(nil, err)`
with the last recorded error (`nil` if the loop never ran). -/
def retryLoop {σ : Type} (c : Client σ) (req : Req) (s : σ) (err : Option Err) :
    Nat → DoResult × σ
  | 0 => (⟨none, err⟩, s)
  | Nat.succ n =>
      let r := c s req
      match r.1.err with
      | some e => retryLoop c req r.2 (some e) n
      | none => (⟨r.1.resp, none⟩, r.2)

/-- `RetryHTTPClient` (doer/main.go:171-193): wrap `c` with retry
functionality, trying up to `retries` times. -/
def RetryHTTPClient {σ : Type} (c : Client σ) (retries : Nat) : Client σ :=
  fun s req => retryLoop c req s none retries

/-- A mock `HTTPClient` whose `DoFn` outcome is scripted by attempt index;
its state counts how many times `Do` has been invoked. -/
def scriptClient (f : Nat → DoResult) : Client Nat :=
  fun n _ => (f n, n + 1)

/-- The scripted mock used below as a concrete witness: its `DoFn` fails on
the first two attempts, then succeeds. -/
def twiceFailingDo : Nat → DoResult := fun n =>
  if n = 0 then ⟨none, some "e0"⟩
  else if n = 1 then ⟨none, some "e1"⟩
  else ⟨some "ok", none⟩

/-! ### MultiPublisher lemmas -/

/-- When every publisher in the list succeeds on `msg`, the loop visits them
all in order, accumulating their traces, and returns `nil`. -/
lemma multi_all_ok (msg : String) :
    ∀ ps : List Publisher, (∀ q ∈ ps, (q msg).2 = none) →
      MultiPublisher ps msg = ((ps.map fun q => (q msg).1).flatten, none) := by
  intro ps
  induction ps with
  | nil => intro _; rfl
  | cons p ps ih =>
    intro h
    have hp : (p msg).2 = none := h p (by simp)
    have ihp := ih fun q hq => h q (by simp [hq])
    simp only [MultiPublisher, hp, ihp, List.map_cons, List.flatten_cons]

/-- When every publisher in `ps1` succeeds on `msg` and `p` fails with `e`,
the loop visits exactly `ps1` and then `p`, returns `e`, and never reaches
the publishers in `ps2`. -/
lemma multi_first_err (msg : String) :
    ∀ (ps1 : List Publisher) (p : Publisher) (ps2 : List Publisher) (e : Err),
      (∀ q ∈ ps1, (q msg).2 = none) → (p msg).2 = some e →
      MultiPublisher (ps1 ++ p :: ps2) msg =
        ((ps1.map fun q => (q msg).1).flatten ++ (p msg).1, some e) := by
  intro ps1
  induction ps1 with
  | nil =>
    intro p ps2 e _ hp
    simp only [List.nil_append, MultiPublisher, hp, List.map_nil,
      List.flatten_nil]
  | cons q ps1 ih =>
    intro p ps2 e hok hp
    have hq : (q msg).2 = none := hok q (by simp)
    have ihp := ih p ps2 e (fun x hx => hok x (by simp [hx])) hp
    simp only [List.cons_append, MultiPublisher, hq, List.append_eq, ihp,
      List.map_cons, List.flatten_cons, List.append_assoc]

/-- C3: for every `MultiPublisher` over an ordered sequence of inner
publishers and every message, the inner publishers are invoked in sequence
order with that message; on the first inner error that error is returned and
no later publisher is invoked; if all succeed the result is `nil`. -/
theorem multiPublisher_short_circuit (msg : String) :
    (∀ ps : List Publisher, (∀ q ∈ ps, (q msg).2 = none) →
      MultiPublisher ps msg = ((ps.map fun q => (q msg).1).flatten, none)) ∧
    (∀ (ps1 : List Publisher) (p : Publisher) (ps2 : List Publisher) (e : Err),
      (∀ q ∈ ps1, (q msg).2 = none) → (p msg).2 = some e →
      MultiPublisher (ps1 ++ p :: ps2) msg =
        ((ps1.map fun q => (q msg).1).flatten ++ (p msg).1, some e)) :=
  ⟨multi_all_ok msg, multi_first_err msg⟩

/-- Witness for C3 at a concrete input: over `[L1, L2, L3]` where `L2`
fails, exactly `L1` and `L2` appear in the trace, `L3` is never invoked, and
the returned error is `L2`'s error. -/
theorem multiPublisher_short_circuit_witness :
    MultiPublisher
        ([NewPublisher "d1"] ++ failPublisher "d2" :: [NewPublisher "d3"]) "m"
      = ([("d1", "m"), ("d2", "m")], some "failed to send msg: m") :=
  ((multiPublisher_short_circuit "m").2 [NewPublisher "d1"] (failPublisher "d2")
    [NewPublisher "d3"] "failed to send msg: m" (by decide)
    (by decide)).trans (by decide)

/-- C10: a `MultiPublisher` over an empty sequence of publishers returns
`nil` on every message with an empty trace: no inner publisher is invoked. -/
theorem multiPublisher_empty (msg : String) :
    MultiPublisher [] msg = ([], none) := rfl

/-! ### TransformPublisher theorems -/

/-- C6: `TransformPublisher p tfn` invokes `p` exactly once with `tfn msg`
and returns its result unmodified; over a leaf, the trace shows the single
delivery of the transformed message; with the uppercase transform, input
`"hello"` reaches the leaf as `"HELLO"`. -/
theorem transformPublisher_forwards (p : Publisher) (tfn : String → String)
    (msg d : String) :
    TransformPublisher p tfn msg = p (tfn msg) ∧
    TransformPublisher (NewPublisher d) tfn msg = ([(d, tfn msg)], none) ∧
    TransformPublisher (NewPublisher d) uppercase "hello"
      = ([(d, "HELLO")], none) := by
  refine ⟨rfl, rfl, ?_⟩
  have h : uppercase "hello" = "HELLO" := by decide
  simp [TransformPublisher, NewPublisher, h]

/-- C7: a `TransformPublisher` with the identity transform is
observationally equivalent to its inner publisher: same forwarded message,
same trace, same returned result. -/
theorem transformPublisher_identity (p : Publisher) (msg : String) :
    TransformPublisher p id msg = p msg := rfl

/-! ### BatchPublisher lemmas -/

/-- A call that fills the buffer to exactly `N` forwards the joined
aggregate and keeps the (unreset) buffer. -/
lemma BatchPublisher_flush (p : Publisher) (N : Nat) (b : List String)
    (m : String) (h : (b ++ [m]).length = N) :
    BatchPublisher p N b m =
      (([String.intercalate "," (b ++ [m])],
        p (String.intercalate "," (b ++ [m]))), b ++ [m]) := by
  simp [BatchPublisher, h]

/-- A call that does not bring the buffer to exactly `N` is absorbed:
nothing is forwarded and `nil` is returned. -/
lemma BatchPublisher_absorb (p : Publisher) (N : Nat) (b : List String)
    (m : String) (h : (b ++ [m]).length ≠ N) :
    BatchPublisher p N b m = (([], ([], none)), b ++ [m]) := by
  simp only [BatchPublisher]
  rw [if_neg h]

/-- Every call appends its message to the buffer, flush or not: the buffer
is never reset. -/
lemma BatchPublisher_snd (p : Publisher) (N : Nat) (b : List String)
    (m : String) : (BatchPublisher p N b m).2 = b ++ [m] := by
  by_cases h : (b ++ [m]).length = N
  · rw [BatchPublisher_flush p N b m h]
  · rw [BatchPublisher_absorb p N b m h]

/-- A run of calls extends the buffer by exactly the messages published. -/
lemma batchRun_snd (p : Publisher) (N : Nat) :
    ∀ (ms b : List String), (batchRun p N b ms).2 = b ++ ms := by
  intro ms
  induction ms with
  | nil => intro b; simp [batchRun]
  | cons m ms ih =>
    intro b
    simp only [batchRun, BatchPublisher_snd, ih]
    simp

/-- Any call other than the one bringing the buffer to exactly `N` elements
is absorbed: no forward, empty trace, `nil` result. -/
lemma batchRun_get_absorb (p : Publisher) (N : Nat) :
    ∀ (ms b : List String) (k : Nat) (hk : k < (batchRun p N b ms).1.length),
      b.length + (k + 1) ≠ N →
      (batchRun p N b ms).1.get ⟨k, hk⟩ = ([], ([], none)) := by
  intro ms
  induction ms with
  | nil => intro b k hk _; simp [batchRun] at hk
  | cons m ms ih =>
    intro b k hk hne
    rcases k with _ | k
    · have h1 : (b ++ [m]).length ≠ N := by
        simp only [List.length_append, List.length_singleton]
        omega
      simp [batchRun, BatchPublisher_absorb p N b m h1]
    · have hk' : k < (batchRun p N (BatchPublisher p N b m).2 ms).1.length := by
        simp only [batchRun, List.length_cons] at hk
        omega
      have hres := ih (BatchPublisher p N b m).2 k hk' (by
        rw [BatchPublisher_snd]
        simp only [List.length_append, List.length_singleton]
        omega)
      simp only [batchRun, List.get_cons_succ]
      exact hres

/-- Once the buffer has at least `N` elements, no later call ever forwards
anything (the buffer only grows past the threshold). -/
lemma batchRun_no_flush (p : Publisher) (N : Nat) :
    ∀ (ms b : List String), N ≤ b.length →
      ((batchRun p N b ms).1.map Prod.fst).flatten = [] := by
  intro ms
  induction ms with
  | nil => intro b _; simp [batchRun]
  | cons m ms ih =>
    intro b hb
    have h1 : (b ++ [m]).length ≠ N := by
      simp only [List.length_append, List.length_singleton]
      omega
    simp only [batchRun, BatchPublisher_absorb p N b m h1, List.map_cons,
      List.flatten_cons, List.nil_append]
    exact ih (b ++ [m]) (by
      simp only [List.length_append, List.length_singleton]
      omega)

/-- Over any run, at most one aggregate is ever forwarded downstream. -/
lemma batchRun_flatten_le (p : Publisher) (N : Nat) :
    ∀ (ms b : List String),
      (((batchRun p N b ms).1.map Prod.fst).flatten).length ≤ 1 := by
  intro ms
  induction ms with
  | nil => intro b; simp [batchRun]
  | cons m ms ih =>
    intro b
    by_cases h : (b ++ [m]).length = N
    · simp only [batchRun, BatchPublisher_flush p N b m h, List.map_cons,
        List.flatten_cons]
      rw [batchRun_no_flush p N ms (b ++ [m]) (le_of_eq h.symm)]
      simp
    · simp only [batchRun, BatchPublisher_absorb p N b m h, List.map_cons,
        List.flatten_cons, List.nil_append]
      exact ih (b ++ [m])

/-- Filling an initially partial buffer to exactly the threshold: every call
but the last is absorbed, and the last call forwards the joined aggregate of
the whole buffer. -/
lemma batchRun_fill (p : Publisher) (N : Nat) :
    ∀ (ms b : List String), ms ≠ [] → b.length + ms.length = N →
      batchRun p N b ms =
        (List.replicate (ms.length - 1) ([], ([], none)) ++
          [([String.intercalate "," (b ++ ms)],
            p (String.intercalate "," (b ++ ms)))], b ++ ms) := by
  intro ms
  induction ms with
  | nil => intro b h _; exact absurd rfl h
  | cons m ms ih =>
    intro b _ hN
    rcases ms with _ | ⟨m2, ms⟩
    · have h1 : (b ++ [m]).length = N := by
        simp only [List.length_append, List.length_cons, List.length_nil]
          at hN ⊢
        omega
      simp [batchRun, BatchPublisher_flush p N b m h1]
    · have h1 : (b ++ [m]).length ≠ N := by
        simp only [List.length_append, List.length_cons, List.length_nil]
          at hN ⊢
        omega
      have ihm := ih (b ++ [m]) (by simp) (by
        simp only [List.length_append, List.length_cons, List.length_nil]
          at hN ⊢
        omega)
      rw [batchRun, BatchPublisher_absorb p N b m h1]
      dsimp only
      rw [ihm]
      simp [List.replicate_succ, List.append_assoc]

/-- C5: a freshly constructed `BatchPublisher` with threshold `N`, given `N`
inputs, absorbs the first `N - 1` calls (success, nothing forwarded) and on
the `N`-th call forwards exactly one aggregate, the inputs joined with `","`
in call order, returning the inner result. -/
theorem batchPublisher_fresh_run (p : Publisher) (inputs : List String)
    (h : inputs ≠ []) :
    batchRun p inputs.length [] inputs =
      (List.replicate (inputs.length - 1) ([], ([], none)) ++
        [([String.intercalate "," inputs],
          p (String.intercalate "," inputs))], inputs) := by
  have hfill := batchRun_fill p inputs.length inputs [] h (by simp)
  simpa using hfill

/-- Witness for C5: threshold 3, inputs `"a"`, `"b"`, `"c"`: two absorbed
calls, then exactly one forwarded aggregate `"a,b,c"`. -/
theorem batchPublisher_fresh_run_witness :
    batchRun (NewPublisher "dest-1") 3 [] ["a", "b", "c"] =
      ([([], ([], none)), ([], ([], none)),
        (["a,b,c"], ([("dest-1", "a,b,c")], none))], ["a", "b", "c"]) :=
  (batchPublisher_fresh_run (NewPublisher "dest-1") ["a", "b", "c"]
    (by decide)).trans (by decide)

/-- C9: for a fresh `BatchPublisher` with threshold `N ≥ 1`, the buffer only
ever grows (it is never reset), every call other than the `N`-th is absorbed
with a `nil` result and no forward — in particular every call after the
first flush — and at most one aggregate is forwarded to the inner publisher
over the decorator's entire lifetime. -/
theorem batchPublisher_single_flush (p : Publisher) (N : Nat)
    (inputs : List String) (_hN : 1 ≤ N) :
    (batchRun p N [] inputs).2 = inputs ∧
    (∀ (k : Nat) (hk : k < (batchRun p N [] inputs).1.length), k + 1 ≠ N →
      (batchRun p N [] inputs).1.get ⟨k, hk⟩ = ([], ([], none))) ∧
    (((batchRun p N [] inputs).1.map Prod.fst).flatten).length ≤ 1 := by
  refine ⟨by simpa using batchRun_snd p N inputs [], ?_,
    batchRun_flatten_le p N inputs []⟩
  intro k hk hne
  exact batchRun_get_absorb p N inputs [] k hk (by simpa using hne)

/-- Witness for C9: threshold 2 and four inputs — the buffer ends holding
all four messages and at most one aggregate was ever forwarded. -/
theorem batchPublisher_single_flush_witness :
    (batchRun (NewPublisher "dest-1") 2 [] ["a", "b", "c", "d"]).2
        = ["a", "b", "c", "d"] ∧
    (((batchRun (NewPublisher "dest-1") 2 [] ["a", "b", "c", "d"]).1.map
        Prod.fst).flatten).length ≤ 1 :=
  ⟨(batchPublisher_single_flush (NewPublisher "dest-1") 2 ["a", "b", "c", "d"]
      (by decide)).1,
   (batchPublisher_single_flush (NewPublisher "dest-1") 2 ["a", "b", "c", "d"]
      (by decide)).2.2⟩

/-- C1 fails on the code: with threshold 1, the first call forwards `"a"`
but the buffer is not cleared, so the second call grows it to
`["a", "b"]` — length 2, exceeding the threshold — and is absorbed.  The
buffer length bound `≤ N` does not hold for reachable states. -/
theorem batchPublisher_buffer_grows :
    (((batchRun (NewPublisher "dest-1") 1 [] ["a", "b"]).1.map
        Prod.fst).flatten = ["a"]) ∧
    (batchRun (NewPublisher "dest-1") 1 [] ["a", "b"]).2 = ["a", "b"] ∧
    1 < (batchRun (NewPublisher "dest-1") 1 [] ["a", "b"]).2.length := by
  refine ⟨by decide, by decide, by decide⟩

/-! ### RetryHTTPClient lemmas -/

/-- The retry loop over a scripted client makes at most `n` further
attempts: the final call count is bounded by the starting count plus the
iteration budget. -/
lemma retryLoop_state_le (f : Nat → DoResult) (req : Req) :
    ∀ (n s : Nat) (e : Option Err),
      (retryLoop (scriptClient f) req s e n).2 ≤ s + n := by
  intro n
  induction n with
  | zero => intro s e; simp [retryLoop]
  | succ n ih =>
    intro s e
    rcases hfe : (f s).err with _ | e'
    · simp [retryLoop, scriptClient, hfe]
    · simp only [retryLoop, scriptClient, hfe]
      have := ih (s + 1) (some e')
      omega

/-- If every attempt scripted from index `s` through `s + m` fails, the loop
runs all `m + 1` iterations and returns a nil response with the error of the
last attempt. -/
lemma retryLoop_all_fail (f : Nat → DoResult) (req : Req) :
    ∀ (m s : Nat) (e : Option Err),
      (∀ k, k ≤ m → (f (s + k)).err ≠ none) →
      retryLoop (scriptClient f) req s e (m + 1) =
        (⟨none, (f (s + m)).err⟩, s + m + 1) := by
  intro m
  induction m with
  | zero =>
    intro s e h
    have h0 : (f s).err ≠ none := by simpa using h 0 (Nat.le_refl 0)
    rcases hfe : (f s).err with _ | e'
    · exact absurd hfe h0
    · simp [retryLoop, scriptClient, hfe]
  | succ m ih =>
    intro s e h
    have h0 : (f s).err ≠ none := by simpa using h 0 (Nat.zero_le _)
    rcases hfe : (f s).err with _ | e'
    · exact absurd hfe h0
    · have hrec := ih (s + 1) (some e') (fun k hk => by
        have hx := h (k + 1) (by omega)
        have harith : s + (k + 1) = s + 1 + k := by omega
        rw [harith] at hx
        exact hx)
      rw [retryLoop]
      dsimp only [scriptClient]
      rw [hfe]
      dsimp only
      rw [hrec]
      have h1 : s + 1 + m = s + (m + 1) := by omega
      rw [h1]

/-- If the attempts scripted from index `s` fail up to (excluding) `s + k`
and attempt `s + k` succeeds within the budget, the loop returns that
attempt's response immediately, after exactly `k + 1` calls. -/
lemma retryLoop_first_ok (f : Nat → DoResult) (req : Req) :
    ∀ (k n s : Nat) (e : Option Err), k < n →
      (∀ j, j < k → (f (s + j)).err ≠ none) → (f (s + k)).err = none →
      retryLoop (scriptClient f) req s e n =
        (⟨(f (s + k)).resp, none⟩, s + k + 1) := by
  intro k
  induction k with
  | zero =>
    intro n s e hn _ hok
    rcases n with _ | n
    · omega
    · simp only [Nat.add_zero] at hok ⊢
      simp [retryLoop, scriptClient, hok]
  | succ k ih =>
    intro n s e hn hfail hok
    rcases n with _ | n
    · omega
    · have h0 : (f s).err ≠ none := by
        simpa using hfail 0 (Nat.succ_pos k)
      rcases hfe : (f s).err with _ | e'
      · exact absurd hfe h0
      · have hrec := ih n (s + 1) (some e') (by omega)
          (fun j hj => by
            have hx := hfail (j + 1) (by omega)
            have harith : s + (j + 1) = s + 1 + j := by omega
            rw [harith] at hx
            exact hx)
          (by
            have harith : s + 1 + k = s + (k + 1) := by omega
            rw [harith]
            exact hok)
        simp only [retryLoop, scriptClient, hfe]
        rw [hrec]
        have h1 : s + 1 + k = s + (k + 1) := by omega
        rw [h1]

/-- C4: a `RetryHTTPClient` with positive retry count `R` attempts the inner
`Do` at most `R` times; the first successful attempt's response is returned
immediately (after exactly that many calls); if all `R` attempts fail, the
result is a nil response with the `R`-th attempt's error. -/
theorem retryHTTPClient_spec (f : Nat → DoResult) (req : Req) (R : Nat)
    (hR : 0 < R) :
    (RetryHTTPClient (scriptClient f) R 0 req).2 ≤ R ∧
    (∀ k, k < R → (∀ j, j < k → (f j).err ≠ none) → (f k).err = none →
      RetryHTTPClient (scriptClient f) R 0 req = (⟨(f k).resp, none⟩, k + 1)) ∧
    ((∀ k, k < R → (f k).err ≠ none) →
      RetryHTTPClient (scriptClient f) R 0 req =
        (⟨none, (f (R - 1)).err⟩, R)) := by
  refine ⟨?_, ?_, ?_⟩
  · simpa [RetryHTTPClient] using retryLoop_state_le f req R 0 none
  · intro k hk hfail hok
    have h := retryLoop_first_ok f req k R 0 none hk
      (by simpa using hfail) (by simpa using hok)
    simpa [RetryHTTPClient] using h
  · intro hall
    rcases R with _ | m
    · omega
    · have h := retryLoop_all_fail f req m 0 none
        (fun k hk => by simpa using hall k (by omega))
      simpa [RetryHTTPClient] using h

/-- Witness for C4: over a mock whose `DoFn` fails twice then succeeds, a
retry count of 3 yields exactly 3 attempts and the third attempt's
response. -/
theorem retryHTTPClient_spec_witness :
    RetryHTTPClient (scriptClient twiceFailingDo) 3 0 "req"
      = (⟨some "ok", none⟩, 3) :=
  ((retryHTTPClient_spec twiceFailingDo "req" 3 (by decide)).2.1 2 (by decide)
    (by decide) (by decide)).trans (by decide)

/-- C8: a `RetryHTTPClient` constructed with retry count 0 returns a nil
response and a nil error on every request, leaving the inner client's state
untouched: the loop body never executes, so the inner `Do` is never
invoked. -/
theorem retryHTTPClient_zero_retries {σ : Type} (c : Client σ) (s : σ)
    (req : Req) : RetryHTTPClient c 0 s req = (⟨none, none⟩, s) := rfl

/-- C2 fails on the code: neither constructor rejects a zero configuration
value.  `RetryHTTPClient` with 0 retries is constructed without error and
its `Do` runs, returning nil response and nil error after zero inner calls;
`BatchPublisher` with batch size 0 is constructed without error and its
`Publish` runs, absorbing the message without forwarding. -/
theorem zero_config_not_rejected :
    RetryHTTPClient (scriptClient fun _ => ⟨none, some "e"⟩) 0 0 "req"
        = (⟨none, none⟩, 0) ∧
    BatchPublisher (NewPublisher "dest-1") 0 [] "a"
        = (([], ([], none)), ["a"]) :=
  ⟨rfl, by decide⟩

/-- C2 amended: the constructors perform no validation.  With 0 retries,
`Do` returns nil response and nil error with the inner client's state (call
count) unchanged; with batch size 0 the buffer length after an append is
never 0, so every `Publish` absorbs its message and nothing is ever
forwarded. -/
theorem zero_config_behavior {σ : Type} (c : Client σ) (s : σ) (req : Req)
    (p : Publisher) (buf : List String) (msg : String) :
    RetryHTTPClient c 0 s req = (⟨none, none⟩, s) ∧
    BatchPublisher p 0 buf msg = (([], ([], none)), buf ++ [msg]) :=
  ⟨rfl, BatchPublisher_absorb p 0 buf msg (by simp)⟩

end StubbyMc
